import Mathlib

/-!
Verification development for the animation blend-and-transition core and the
editor/UI helpers of this repository.

The development shallowly embeds the Rust sources:

* `src/src/animation/machine/state.rs` (`State`, `State::pose`, `State::update`)
* `src/src/animation/machine/node/mod.rs` (`BasePoseNode`, `PoseNode`,
  `PoseNode::children`, the `EvaluatePose` dispatch)
* `src/editor/src/scene/selector.rs` (`HierarchyNode::from_scene_node`,
  `apply_filter_recursive`)
* `src/rg3d-ui/src/message.rs` (`MessageDirection::reverse`, `UiMessage::reverse`)

The per-variant evaluator bodies (`node/play.rs`, `node/blend.rs`) and the
`Reflect` derive implementation are not part of the sources; where a claim
depends on them the corresponding definition is modelled from the spec and is
marked as such in its doc comment.

Machine floats (`f32`) are modelled by `Rat`; handles are (index, generation)
pairs as in the engine's `Pool`.
-/

namespace Fyrox

/-- A stable arena handle: (index, generation) pair, as in `rg3d_core::pool::Handle`. -/
structure Handle where
  index : Nat
  generation : Nat
deriving DecidableEq, Repr

/-- One arena slot: its current generation and an optional payload
(`None` models a vacant slot). -/
structure PoolRecord (α : Type) where
  generation : Nat
  payload : Option α
deriving DecidableEq, Repr

/-- An arena of records addressed by stable handles, as in `rg3d_core::pool::Pool`. -/
structure Pool (α : Type) where
  records : List (PoolRecord α)
deriving DecidableEq, Repr

/-- `Pool::try_borrow`: returns the payload iff the index is in range, the
generation matches, and the slot is occupied. -/
def Pool.tryBorrow {α : Type} (p : Pool α) (h : Handle) : Option α :=
  match p.records[h.index]? with
  | some r => if r.generation = h.generation then r.payload else none
  | none => none

/-- Whether a handle resolves to a live node of the pool: in-range index,
matching generation, occupied slot. -/
def Pool.isLive {α : Type} (p : Pool α) (h : Handle) : Bool :=
  match p.records[h.index]? with
  | some r => decide (r.generation = h.generation) && r.payload.isSome
  | none => false

/-- A parameter value: `Machine` parameters are numbers, booleans
(condition rules) or indices. -/
inductive Parameter where
  | weight (w : Rat)
  | rule (b : Bool)
  | index (i : Nat)
deriving DecidableEq, Repr

/-- The parameter table: name-keyed values written by gameplay code. -/
abbrev ParameterContainer : Type := List (String × Parameter)

/-- Name lookup in the parameter table. -/
def ParameterContainer.get (params : ParameterContainer) (name : String) : Option Parameter :=
  (params.find? (fun p => p.1 = name)).map (·.2)

/-- An animation pose: an association list from bone handles to (abstracted)
local transforms. The transform arithmetic itself lives outside the sources,
so a transform is abstracted to one rational component. -/
abbrev AnimationPose : Type := List (Nat × Rat)

/-- The neutral identity pose: no bone is displaced. -/
def neutralPose : AnimationPose := []

/-- The animation store, seen through its read contract
(spec section 6: sample(clip_handle, local_time) -> pose). -/
abbrev AnimationContainer : Type := Nat → Rat → AnimationPose

/-- Scale every bone transform of a pose by a weight. -/
def scalePose (w : Rat) (p : AnimationPose) : AnimationPose :=
  p.map (fun bv => (bv.1, w * bv.2))

/-- Look a bone up in a pose, defaulting to the neutral transform 0. -/
def boneValue (p : AnimationPose) (bone : Nat) : Rat :=
  match p.find? (fun bv => bv.1 = bone) with
  | some bv => bv.2
  | none => 0

/-- Add two poses bone-wise (bones of the second pose missing from the first
are appended). -/
def addPose (p q : AnimationPose) : AnimationPose :=
  p.map (fun bv => (bv.1, bv.2 + boneValue q bv.1)) ++
    q.filter (fun bv => !(p.any (fun bv2 => bv2.1 = bv.1)))

/-- Modelled from the spec: `BlendAnimations` normalizes the raw weights when
their sum is nonzero and produces the weighted bone-wise average; a zero raw
sum yields the neutral pose (spec section 4.1). -/
def weightedBlend (ws : List (Rat × AnimationPose)) : AnimationPose :=
  let s : Rat := (ws.map (·.1)).sum
  if s = 0 then neutralPose
  else ws.foldl (fun acc wp => addPose acc (scalePose (wp.1 / s) wp.2)) neutralPose

/-- A 2D vector (`Vector2<f32>`), used only as an editor-position hint. -/
structure Vector2 where
  x : Rat
  y : Rat
deriving DecidableEq, Repr

/-- `BasePoseNode`: the common fields of every pose node — the 2D
editor-position hint and the non-owning back-reference to the owning `State`
(the latter is marked `#[reflect(hidden)]` in the source). -/
structure BasePoseNode where
  position : Vector2
  parentState : Handle
deriving DecidableEq, Repr

/-- Modelled from the spec: `PlayAnimation` (node/play.rs is not in the
sources) references one animation clip by handle and owns a speed factor for
advancing its internally tracked local time. -/
structure PlayAnimation where
  base : BasePoseNode
  animation : Nat
  speed : Rat
deriving DecidableEq, Repr

/-- Modelled from the spec: one input of `BlendAnimations` (node/blend.rs is
not in the sources) — a child node handle paired with the name of the weight
parameter. -/
structure BlendPose where
  poseSource : Handle
  weightParameter : String
deriving DecidableEq, Repr

/-- Modelled from the spec: `BlendAnimations` owns an ordered list of
(child handle, weight parameter) pairs. -/
structure BlendAnimations where
  base : BasePoseNode
  poseSources : List BlendPose
deriving DecidableEq, Repr

/-- Modelled from the spec: one input of `BlendAnimationsByIndex` — a child
node handle. -/
structure IndexedBlendInput where
  poseSource : Handle
deriving DecidableEq, Repr

/-- Modelled from the spec: `BlendAnimationsByIndex` owns the name of the
integer-valued index parameter and an ordered list of child inputs. -/
structure BlendAnimationsByIndex where
  base : BasePoseNode
  indexParameter : String
  inputs : List IndexedBlendInput
deriving DecidableEq, Repr

/-- `PoseNode`: the closed tagged union over the three node kinds
(node/mod.rs). -/
inductive PoseNode where
  | playAnimation (p : PlayAnimation)
  | blendAnimations (b : BlendAnimations)
  | blendAnimationsByIndex (b : BlendAnimationsByIndex)
deriving DecidableEq, Repr

/-- Modelled from the spec: the children of a `BlendAnimations` node are the
pose-source handles of its inputs, in order. -/
def BlendAnimations.children (b : BlendAnimations) : List Handle :=
  b.poseSources.map (·.poseSource)

/-- Modelled from the spec: the children of a `BlendAnimationsByIndex` node
are the pose-source handles of its inputs, in order. -/
def BlendAnimationsByIndex.children (b : BlendAnimationsByIndex) : List Handle :=
  b.inputs.map (·.poseSource)

/-- `PoseNode::children` (node/mod.rs): `PlayAnimation` has no children, the
blend variants delegate to their definitions. -/
def PoseNode.children : PoseNode → List Handle
  | .playAnimation _ => []
  | .blendAnimations definition => definition.children
  | .blendAnimationsByIndex definition => definition.children

/-- The common base fields of a node (`Deref for PoseNode` in node/mod.rs). -/
def PoseNode.base : PoseNode → BasePoseNode
  | .playAnimation p => p.base
  | .blendAnimations b => b.base
  | .blendAnimationsByIndex b => b.base

/-- The per-node interior-mutable evaluation cell: the tick-scoped cache
stamp, the cached pose, the node's locally tracked animation time, and a
ghost counter of how many times the node's pose has been recomputed. -/
structure CacheCell where
  tick : Option Nat
  pose : AnimationPose
  time : Rat
  count : Nat
deriving DecidableEq, Repr

/-- The evaluation state: every node's cache cell, addressed by handle. -/
abbrev EvalState : Type := Handle → CacheCell

/-- The all-fresh evaluation state: nothing cached yet. -/
def freshState : EvalState := fun _ => ⟨none, neutralPose, 0, 0⟩

/-- Pointwise cache-cell update. -/
def setCell (σ : EvalState) (h : Handle) (c : CacheCell) : EvalState :=
  fun h2 => if h2 = h then c else σ h2

/-- The weight of a blend input, read live from the parameter table; a
missing or non-numeric parameter degrades to weight 0 (spec section 4.1). -/
def weightOf (params : ParameterContainer) (name : String) : Rat :=
  match params.get name with
  | some (.weight w) => w
  | _ => 0

/-- The selected child index of a `BlendAnimationsByIndex` node: the index
parameter clamped to the valid range; a missing or non-index parameter
degrades to 0 (spec sections 4.1 and 7). -/
def selectedIndex (params : ParameterContainer) (name : String) (len : Nat) : Nat :=
  match params.get name with
  | some (.index i) => min i (len - 1)
  | _ => 0

/-- Modelled from the spec: the per-tick evaluator of the pose node graph
(the bodies of `eval_pose` in node/play.rs and node/blend.rs are not in the
sources; node/mod.rs only dispatches).  Spec section 4.1: a node recomputes
its cached pose at most once per tick, guarded by a tick-scoped stamp;
a dangling handle substitutes the neutral pose; recursion depth is bounded
(the fuel models the defensive bound of spec section 7(c), returning a
neutral pose when exhausted).  `PlayAnimation` advances its local time by
`dt * speed` and samples its clip; `BlendAnimations` evaluates all children
and blends them by live parameter weights; `BlendAnimationsByIndex`
evaluates only the selected child. -/
def evalPose (nodes : Pool PoseNode) (params : ParameterContainer)
    (animations : AnimationContainer) (dt : Rat) (tick : Nat) :
    Nat → Handle → EvalState → EvalState × AnimationPose
  | 0, _, σ => (σ, neutralPose)
  | fuel+1, h, σ =>
    match nodes.tryBorrow h with
    | none => (σ, neutralPose)
    | some node =>
      if (σ h).tick = some tick then (σ, (σ h).pose)
      else
        match node with
        | .playAnimation p =>
          let t2 := (σ h).time + dt * p.speed
          let pose := animations p.animation t2
          (setCell σ h ⟨some tick, pose, t2, (σ h).count + 1⟩, pose)
        | .blendAnimations b =>
          let r := b.poseSources.foldl
            (fun (acc : EvalState × List (Rat × AnimationPose)) bp =>
              let r1 := evalPose nodes params animations dt tick fuel bp.poseSource acc.1
              (r1.1, acc.2 ++ [(weightOf params bp.weightParameter, r1.2)]))
            (σ, [])
          let pose := weightedBlend r.2
          (setCell r.1 h ⟨some tick, pose, (r.1 h).time, (r.1 h).count + 1⟩, pose)
        | .blendAnimationsByIndex b =>
          match b.inputs[selectedIndex params b.indexParameter b.inputs.length]? with
          | none =>
            (setCell σ h ⟨some tick, neutralPose, (σ h).time, (σ h).count + 1⟩, neutralPose)
          | some inp =>
            let r1 := evalPose nodes params animations dt tick fuel inp.poseSource σ
            (setCell r1.1 h ⟨some tick, r1.2, (r1.1 h).time, (r1.1 h).count + 1⟩, r1.2)

/-- `State` (state.rs): a named entry point into the pose node graph, with an
editor-position hint.  The `root` field is marked `#[reflect(hidden)]` in the
source. -/
structure State where
  position : Vector2
  name : String
  root : Handle
deriving DecidableEq, Repr

/-- `State::new` (state.rs). -/
def State.new (name : String) (root : Handle) : State :=
  { position := ⟨0, 0⟩, name := name, root := root }

/-- `State::pose` (state.rs): the cached pose of the root node if the root
handle resolves, else `none`. -/
def State.pose (s : State) (nodes : Pool PoseNode) (σ : EvalState) : Option AnimationPose :=
  (nodes.tryBorrow s.root).map (fun _ => (σ s.root).pose)

/-- `State::update` (state.rs): if the root handle resolves, evaluate the
root node (and transitively its subtree) for the current tick; otherwise do
nothing.  The state itself is returned unchanged, mirroring the Rust body
which never assigns to `self`.  The fuel is one more than the arena size,
enough for any DAG in the pool. -/
def State.update (s : State) (nodes : Pool PoseNode) (params : ParameterContainer)
    (animations : AnimationContainer) (dt : Rat) (tick : Nat) (σ : EvalState) :
    State × EvalState :=
  match nodes.tryBorrow s.root with
  | some _ =>
    (s, (evalPose nodes params animations dt tick (nodes.records.length + 1) s.root σ).1)
  | none => (s, σ)


/-- Modelled from the spec: the DAG invariant of the pose node graph, phrased
through an explicit rank certificate — every child of every occupied slot has
strictly smaller rank than its parent slot (spec section 3: cycles are a
violated invariant). -/
def rankedDag (nodes : Pool PoseNode) (rank : Nat → Nat) : Bool :=
  nodes.records.enum.all fun ir =>
    match ir.2.payload with
    | some node => node.children.all fun c => rank c.index < rank ir.1
    | none => true

theorem rankedDag_children {nodes : Pool PoseNode} {rank : Nat → Nat}
    (hd : rankedDag nodes rank = true) {h : Handle} {node : PoseNode}
    (hb : nodes.tryBorrow h = some node) :
    ∀ c ∈ node.children, rank c.index < rank h.index := by
  intro c hc
  rcases hr : nodes.records[h.index]? with _ | r
  · simp [Pool.tryBorrow, hr] at hb
  · simp only [Pool.tryBorrow, hr] at hb
    by_cases hg : r.generation = h.generation
    · rw [if_pos hg] at hb
      have hmem : (h.index, r) ∈ nodes.records.enum :=
        List.mem_enum_iff_getElem?.2 hr
      have hall := (List.all_eq_true.1 hd) _ hmem
      simp only [hb] at hall
      exact of_decide_eq_true (List.all_eq_true.1 hall c hc)
    · rw [if_neg hg] at hb; exact absurd hb (by simp)

/-- A post-state agrees with a pre-state on every cell the predicate selects. -/
def PresOn (Q : Handle → Prop) (σa σb : EvalState) : Prop :=
  ∀ h2, Q h2 → σb h2 = σa h2

theorem presOn_refl (Q : Handle → Prop) (σ : EvalState) : PresOn Q σ σ :=
  fun _ _ => rfl

/-- Cells already stamped for this tick are never touched again: the
preservation relation used for the once-per-tick argument. -/
def StampPres (tick : Nat) (σa σb : EvalState) : Prop :=
  ∀ h2, (σa h2).tick = some tick → σb h2 = σa h2

theorem stampPres_refl (tick : Nat) (σ : EvalState) : StampPres tick σ σ :=
  fun _ _ => rfl

theorem stampPres_trans (tick : Nat) {a b c : EvalState}
    (hab : StampPres tick a b) (hbc : StampPres tick b c) : StampPres tick a c := by
  intro h2 hst
  have h1 := hab h2 hst
  have h2b := hbc h2 (by rw [h1]; exact hst)
  rw [h2b, h1]

/-- A reflexive-transitive preservation relation survives a left fold whose
steps all preserve it. -/
theorem foldl_rel {γ δ : Type} (R : EvalState → EvalState → Prop)
    (hrefl : ∀ σ, R σ σ) (htrans : ∀ {a b c}, R a b → R b c → R a c)
    (step : EvalState × γ → δ → EvalState × γ) :
    ∀ (l : List δ), (∀ acc x, x ∈ l → R acc.1 (step acc x).1) →
      ∀ acc, R acc.1 (l.foldl step acc).1 := by
  intro l
  induction l with
  | nil => intro _ acc; exact hrefl _
  | cons x xs ih =>
    intro hstep acc
    simp only [List.foldl_cons]
    exact htrans (hstep acc x (List.mem_cons_self x xs))
      (ih (fun a y hy => hstep a y (List.mem_cons_of_mem x hy)) (step acc x))

/-- Evaluation never touches a cell that is already stamped for the current
tick: a node computed earlier in the tick is never recomputed, its counter
and cached pose are left alone. -/
theorem evalPose_stampPres (nodes : Pool PoseNode) (params : ParameterContainer)
    (animations : AnimationContainer) (dt : Rat) (tick : Nat) :
    ∀ fuel h σ, StampPres tick σ (evalPose nodes params animations dt tick fuel h σ).1 := by
  intro fuel
  induction fuel with
  | zero => intro h σ; exact stampPres_refl tick σ
  | succ fuel ih =>
    intro h σ h2 hst
    simp only [evalPose]
    rcases htb : nodes.tryBorrow h with _ | node
    · rfl
    · simp only []
      by_cases hc : (σ h).tick = some tick
      · rw [if_pos hc]
      · rw [if_neg hc]
        have hne : h2 ≠ h := by
          intro he; rw [he] at hst; exact hc hst
        cases node with
        | playAnimation p =>
          simp only [setCell, if_neg hne]
        | blendAnimations b =>
          simp only [setCell, if_neg hne]
          exact foldl_rel (StampPres tick) (stampPres_refl tick)
            (fun hab hbc => stampPres_trans tick hab hbc)
            (fun (acc : EvalState × List (Rat × AnimationPose)) bp =>
              ((evalPose nodes params animations dt tick fuel bp.poseSource acc.1).1,
                acc.2 ++ [(weightOf params bp.weightParameter,
                  (evalPose nodes params animations dt tick fuel bp.poseSource acc.1).2)]))
            b.poseSources (fun acc x _ => ih x.poseSource acc.1) (σ, []) h2 hst
        | blendAnimationsByIndex b =>
          rcases hg : b.inputs[selectedIndex params b.indexParameter b.inputs.length]?
            with _ | inp
          · simp [hg, setCell, hne]
          · simp only [hg, setCell, if_neg hne]
            exact ih inp.poseSource σ h2 hst


/-- A cache hit is a no-op: when the node already carries this tick's stamp,
evaluation returns the cached pose and leaves the whole evaluation state
(counters included) untouched. -/
theorem evalPose_cacheHit (nodes : Pool PoseNode) (params : ParameterContainer)
    (animations : AnimationContainer) (dt : Rat) (tick : Nat) (fuel : Nat)
    (h : Handle) (σ : EvalState) (node : PoseNode)
    (htb : nodes.tryBorrow h = some node) (hst : (σ h).tick = some tick) :
    evalPose nodes params animations dt tick (fuel+1) h σ = (σ, (σ h).pose) := by
  simp only [evalPose, htb]
  rw [if_pos hst]

/-- Evaluating a resolving handle stamps its cell for the current tick and
stores exactly the returned pose in the cache. -/
theorem evalPose_setsStamp (nodes : Pool PoseNode) (params : ParameterContainer)
    (animations : AnimationContainer) (dt : Rat) (tick : Nat) (fuel : Nat)
    (h : Handle) (σ : EvalState) (node : PoseNode)
    (htb : nodes.tryBorrow h = some node) :
    ((evalPose nodes params animations dt tick (fuel+1) h σ).1 h).tick = some tick ∧
      ((evalPose nodes params animations dt tick (fuel+1) h σ).1 h).pose =
        (evalPose nodes params animations dt tick (fuel+1) h σ).2 := by
  by_cases hst : (σ h).tick = some tick
  · rw [evalPose_cacheHit nodes params animations dt tick fuel h σ node htb hst]
    exact ⟨hst, rfl⟩
  · simp only [evalPose, htb]
    rw [if_neg hst]
    cases node with
    | playAnimation p => simp [setCell]
    | blendAnimations b => simp [setCell]
    | blendAnimationsByIndex b =>
      rcases hg : b.inputs[selectedIndex params b.indexParameter b.inputs.length]?
        with _ | inp
      · simp [hg, setCell]
      · simp [hg, setCell]

/-- A post-state agrees with the pre-state on every cell whose slot rank
exceeds the given bound. -/
def RankPres (rank : Nat → Nat) (b : Nat) (σa σb : EvalState) : Prop :=
  ∀ h2, b < rank h2.index → σb h2 = σa h2

theorem rankPres_refl (rank : Nat → Nat) (b : Nat) (σ : EvalState) :
    RankPres rank b σ σ := fun _ _ => rfl

theorem rankPres_trans (rank : Nat → Nat) (b : Nat) {x y z : EvalState}
    (hxy : RankPres rank b x y) (hyz : RankPres rank b y z) :
    RankPres rank b x z := fun h2 hlt => (hyz h2 hlt).trans (hxy h2 hlt)

/-- With a rank certificate for the DAG invariant, evaluating a node touches
no cell of strictly larger rank; in particular no ancestor cell. -/
theorem evalPose_rankPres {nodes : Pool PoseNode} {rank : Nat → Nat}
    (hd : rankedDag nodes rank = true) (params : ParameterContainer)
    (animations : AnimationContainer) (dt : Rat) (tick : Nat) :
    ∀ fuel h σ h2, rank h.index < rank h2.index →
      (evalPose nodes params animations dt tick fuel h σ).1 h2 = σ h2 := by
  intro fuel
  induction fuel with
  | zero => intro h σ h2 _; rfl
  | succ fuel ih =>
    intro h σ h2 hlt
    have hne : h2 ≠ h := by
      intro he; rw [he] at hlt; exact lt_irrefl _ hlt
    simp only [evalPose]
    rcases htb : nodes.tryBorrow h with _ | node
    · rfl
    · simp only []
      by_cases hc : (σ h).tick = some tick
      · rw [if_pos hc]
      · rw [if_neg hc]
        cases node with
        | playAnimation p =>
          simp only [setCell, if_neg hne]
        | blendAnimations b =>
          simp only [setCell, if_neg hne]
          refine foldl_rel (RankPres rank (rank h.index))
            (rankPres_refl rank (rank h.index))
            (fun hab hbc => rankPres_trans rank (rank h.index) hab hbc)
            (fun (acc : EvalState × List (Rat × AnimationPose)) bp =>
              ((evalPose nodes params animations dt tick fuel bp.poseSource acc.1).1,
                acc.2 ++ [(weightOf params bp.weightParameter,
                  (evalPose nodes params animations dt tick fuel bp.poseSource acc.1).2)]))
            b.poseSources ?_ (σ, []) h2 hlt
          intro acc x hx h3 hlt3
          have hcx : rank x.poseSource.index < rank h.index := by
            refine rankedDag_children hd htb x.poseSource ?_
            simp only [PoseNode.children, BlendAnimations.children]
            exact List.mem_map_of_mem (fun bp => bp.poseSource) hx
          exact ih x.poseSource acc.1 h3 (lt_trans hcx hlt3)
        | blendAnimationsByIndex b =>
          rcases hg : b.inputs[selectedIndex params b.indexParameter b.inputs.length]?
            with _ | inp
          · simp [hg, setCell, hne]
          · simp only [hg, setCell, if_neg hne]
            have hcx : rank inp.poseSource.index < rank h.index := by
              refine rankedDag_children hd htb inp.poseSource ?_
              simp only [PoseNode.children, BlendAnimationsByIndex.children]
              exact List.mem_map_of_mem (fun i => i.poseSource) (List.getElem?_mem hg)
            exact ih inp.poseSource σ h2 (lt_trans hcx hlt)

/-- With the DAG invariant, the first computation of a node in a tick bumps
its ghost computation counter by exactly one (the children evaluations,
being of strictly smaller rank, never write the node's own cell). -/
theorem evalPose_countOnce (nodes : Pool PoseNode) (rank : Nat → Nat)
    (params : ParameterContainer) (animations : AnimationContainer)
    (dt : Rat) (tick : Nat) (fuel : Nat)
    (h : Handle) (σ : EvalState) (node : PoseNode)
    (hd : rankedDag nodes rank = true)
    (htb : nodes.tryBorrow h = some node) (hns : ¬(σ h).tick = some tick) :
    ((evalPose nodes params animations dt tick (fuel+1) h σ).1 h).count =
      (σ h).count + 1 := by
  simp only [evalPose, htb]
  rw [if_neg hns]
  cases node with
  | playAnimation p => simp [setCell]
  | blendAnimations b =>
    have hmid :
        (List.foldl
          (fun (acc : EvalState × List (Rat × AnimationPose)) bp =>
            ((evalPose nodes params animations dt tick fuel bp.poseSource acc.1).1,
              acc.2 ++ [(weightOf params bp.weightParameter,
                (evalPose nodes params animations dt tick fuel bp.poseSource acc.1).2)]))
          (σ, []) b.poseSources).1 h = σ h := by
      refine foldl_rel (fun σa σb => σb h = σa h) (fun _ => rfl)
        (fun hab hbc => hbc.trans hab) _ b.poseSources ?_ (σ, [])
      intro acc x hx
      have hcx : rank x.poseSource.index < rank h.index := by
        refine rankedDag_children hd htb x.poseSource ?_
        simp only [PoseNode.children, BlendAnimations.children]
        exact List.mem_map_of_mem (fun bp => bp.poseSource) hx
      exact evalPose_rankPres hd params animations dt tick fuel x.poseSource acc.1 h hcx
    simp [setCell, hmid]
  | blendAnimationsByIndex b =>
    rcases hg : b.inputs[selectedIndex params b.indexParameter b.inputs.length]?
      with _ | inp
    · simp [hg, setCell]
    · have hcx : rank inp.poseSource.index < rank h.index := by
        refine rankedDag_children hd htb inp.poseSource ?_
        simp only [PoseNode.children, BlendAnimationsByIndex.children]
        exact List.mem_map_of_mem (fun i => i.poseSource) (List.getElem?_mem hg)
      have hmid2 := evalPose_rankPres hd params animations dt tick fuel inp.poseSource σ h hcx
      simp [hg, setCell, hmid2]


/-- C1: evaluating a pose node recomputes its cached pose exactly once per
tick, however many parents request it: after a first request (a) the node is
stamped for the tick and its cache holds exactly the returned pose, (b) any
subsequent request in the same tick returns the already-computed cached
value and changes nothing (no recomputation anywhere), (c) nodes already
computed this tick are never touched again (so a child shared by several
parents is computed once), and (d) under the DAG invariant the first
computation bumps the node's computation counter by exactly one. -/
theorem claim_C1 (nodes : Pool PoseNode) (params : ParameterContainer)
    (animations : AnimationContainer) (dt : Rat) (tick : Nat) (fuel fuel2 : Nat)
    (h : Handle) (σ : EvalState) (node : PoseNode) (rank : Nat → Nat)
    (htb : nodes.tryBorrow h = some node) :
    (((evalPose nodes params animations dt tick (fuel+1) h σ).1 h).tick = some tick ∧
      ((evalPose nodes params animations dt tick (fuel+1) h σ).1 h).pose =
        (evalPose nodes params animations dt tick (fuel+1) h σ).2) ∧
    evalPose nodes params animations dt tick (fuel2+1) h
        (evalPose nodes params animations dt tick (fuel+1) h σ).1 =
      ((evalPose nodes params animations dt tick (fuel+1) h σ).1,
        (evalPose nodes params animations dt tick (fuel+1) h σ).2) ∧
    StampPres tick σ (evalPose nodes params animations dt tick (fuel+1) h σ).1 ∧
    (rankedDag nodes rank = true → ¬(σ h).tick = some tick →
      ((evalPose nodes params animations dt tick (fuel+1) h σ).1 h).count =
        (σ h).count + 1) := by
  have hs := evalPose_setsStamp nodes params animations dt tick fuel h σ node htb
  refine ⟨hs, ?_, evalPose_stampPres nodes params animations dt tick (fuel+1) h σ,
    fun hd hns => evalPose_countOnce nodes rank params animations dt tick fuel h σ node
      hd htb hns⟩
  rw [evalPose_cacheHit nodes params animations dt tick fuel2 h
    (evalPose nodes params animations dt tick (fuel+1) h σ).1 node htb hs.1, hs.2]

/-- A base-node value for concrete examples. -/
def exampleBase : BasePoseNode := ⟨⟨0, 0⟩, ⟨0, 0⟩⟩

/-- A diamond-shaped pose graph: slot 3 blends slots 1 and 2 with different
weight parameters, and both slots 1 and 2 blend the shared leaf in slot 0. -/
def diamondNodes : Pool PoseNode :=
  ⟨[⟨0, some (.playAnimation ⟨exampleBase, 5, 1⟩)⟩,
    ⟨0, some (.blendAnimations ⟨exampleBase, [⟨⟨0, 0⟩, "w1"⟩]⟩)⟩,
    ⟨0, some (.blendAnimations ⟨exampleBase, [⟨⟨0, 0⟩, "w2"⟩]⟩)⟩,
    ⟨0, some (.blendAnimations ⟨exampleBase, [⟨⟨1, 0⟩, "a"⟩, ⟨⟨2, 0⟩, "b"⟩]⟩)⟩]⟩

/-- The root node stored in slot 3 of `diamondNodes`. -/
def diamondRootNode : PoseNode :=
  .blendAnimations ⟨exampleBase, [⟨⟨1, 0⟩, "a"⟩, ⟨⟨2, 0⟩, "b"⟩]⟩

/-- An animation store that always samples the neutral pose. -/
def zeroAnims : AnimationContainer := fun _ _ => neutralPose

theorem claim_C1_witness :
    diamondNodes.tryBorrow ⟨3, 0⟩ = some diamondRootNode ∧
    rankedDag diamondNodes (fun i => i) = true ∧
    ((((evalPose diamondNodes [] zeroAnims 1 0 (3+1) ⟨3, 0⟩ freshState).1 ⟨3, 0⟩).tick = some 0 ∧
        ((evalPose diamondNodes [] zeroAnims 1 0 (3+1) ⟨3, 0⟩ freshState).1 ⟨3, 0⟩).pose =
          (evalPose diamondNodes [] zeroAnims 1 0 (3+1) ⟨3, 0⟩ freshState).2) ∧
      evalPose diamondNodes [] zeroAnims 1 0 (3+1) ⟨3, 0⟩
          (evalPose diamondNodes [] zeroAnims 1 0 (3+1) ⟨3, 0⟩ freshState).1 =
        ((evalPose diamondNodes [] zeroAnims 1 0 (3+1) ⟨3, 0⟩ freshState).1,
          (evalPose diamondNodes [] zeroAnims 1 0 (3+1) ⟨3, 0⟩ freshState).2) ∧
      StampPres 0 freshState (evalPose diamondNodes [] zeroAnims 1 0 (3+1) ⟨3, 0⟩ freshState).1 ∧
      (rankedDag diamondNodes (fun i => i) = true → ¬(freshState ⟨3, 0⟩).tick = some 0 →
        ((evalPose diamondNodes [] zeroAnims 1 0 (3+1) ⟨3, 0⟩ freshState).1 ⟨3, 0⟩).count =
          (freshState ⟨3, 0⟩).count + 1)) ∧
    (((State.update (State.new "walk" ⟨3, 0⟩) diamondNodes [] zeroAnims 1 0 freshState).2
        ⟨0, 0⟩).count = 1 ∧
      ((State.update (State.new "walk" ⟨3, 0⟩) diamondNodes [] zeroAnims 1 0 freshState).2
        ⟨3, 0⟩).count = 1) :=
  ⟨by decide, by decide,
    claim_C1 diamondNodes [] zeroAnims 1 0 3 3 ⟨3, 0⟩ freshState diamondRootNode
      (fun i => i) (by decide),
    by decide, by decide⟩

/-- C2 counterexample: a `State` whose root handle is dangling does not yield
a neutral pose after `State::update` — it yields no pose at all
(`State::pose` returns `none`, not `some neutralPose`). -/
theorem claim_C2_counterexample :
    ¬ (State.pose (State.new "s" ⟨0, 0⟩) (⟨[]⟩ : Pool PoseNode)
        ((State.update (State.new "s" ⟨0, 0⟩) (⟨[]⟩ : Pool PoseNode) [] zeroAnims 1 0
          freshState).2) = some neutralPose) := by
  decide

/-- C2 (amended): evaluating a dangling handle inside the graph substitutes
the neutral identity pose without aborting, but at the `State` level a
dangling root is a silent no-pose condition: `State::update` skips
evaluation entirely (no state change) and `State::pose` reports `none`
rather than a neutral pose. -/
theorem claim_C2 (nodes : Pool PoseNode) (params : ParameterContainer)
    (animations : AnimationContainer) (dt : Rat) (tick fuel : Nat)
    (s : State) (σ : EvalState) (hdangling : nodes.tryBorrow s.root = none) :
    State.update s nodes params animations dt tick σ = (s, σ) ∧
    State.pose s nodes σ = none ∧
    evalPose nodes params animations dt tick (fuel+1) s.root σ = (σ, neutralPose) := by
  refine ⟨?_, ?_, ?_⟩
  · simp only [State.update, hdangling]
  · simp [State.pose, hdangling]
  · simp only [evalPose, hdangling]

theorem claim_C2_witness :
    (⟨[]⟩ : Pool PoseNode).tryBorrow (State.new "s" ⟨0, 0⟩).root = none ∧
    (State.update (State.new "s" ⟨0, 0⟩) (⟨[]⟩ : Pool PoseNode) [] zeroAnims 1 0 freshState =
        ((State.new "s" ⟨0, 0⟩), freshState) ∧
      State.pose (State.new "s" ⟨0, 0⟩) (⟨[]⟩ : Pool PoseNode) freshState = none ∧
      evalPose (⟨[]⟩ : Pool PoseNode) [] zeroAnims 1 0 (0+1) (State.new "s" ⟨0, 0⟩).root
        freshState = (freshState, neutralPose)) :=
  ⟨rfl, claim_C2 ⟨[]⟩ [] zeroAnims 1 0 0 (State.new "s" ⟨0, 0⟩) freshState rfl⟩

/-- C3: `State::pose` returns the cached pose of the state's root node
exactly when the root handle resolves to a live node of the pool, and `none`
when it does not; it is a total function with no other failure mode. -/
theorem claim_C3 (s : State) (nodes : Pool PoseNode) (σ : EvalState) :
    (nodes.isLive s.root = true → State.pose s nodes σ = some ((σ s.root).pose)) ∧
    (nodes.isLive s.root = false → State.pose s nodes σ = none) := by
  unfold State.pose Pool.isLive Pool.tryBorrow
  rcases hr : nodes.records[s.root.index]? with _ | r
  · simp
  · by_cases hg : r.generation = s.root.generation
    · rcases hp : r.payload with _ | node <;> simp [hg, hp]
    · simp [hg]

theorem claim_C3_witness :
    diamondNodes.isLive ⟨3, 0⟩ = true ∧
    State.pose (State.new "walk" ⟨3, 0⟩) diamondNodes freshState =
      some ((freshState ⟨3, 0⟩).pose) :=
  ⟨by decide, (claim_C3 (State.new "walk" ⟨3, 0⟩) diamondNodes freshState).1 (by decide)⟩

/-- C4: `State::update` leaves the state's own fields (name, root handle,
editor position) unchanged, and its entire effect is the evaluation of the
root node's subtree for the current tick — when the root resolves the new
evaluation state is exactly the root evaluation's, and when it does not
resolve nothing changes; no blending happens in `update` itself. -/
theorem claim_C4 (s : State) (nodes : Pool PoseNode) (params : ParameterContainer)
    (animations : AnimationContainer) (dt : Rat) (tick : Nat) (σ : EvalState) :
    (State.update s nodes params animations dt tick σ).1.name = s.name ∧
    (State.update s nodes params animations dt tick σ).1.root = s.root ∧
    (State.update s nodes params animations dt tick σ).1.position = s.position ∧
    (∀ node, nodes.tryBorrow s.root = some node →
      (State.update s nodes params animations dt tick σ).2 =
        (evalPose nodes params animations dt tick (nodes.records.length + 1) s.root σ).1) ∧
    (nodes.tryBorrow s.root = none →
      (State.update s nodes params animations dt tick σ).2 = σ) := by
  rcases htb : nodes.tryBorrow s.root with _ | node <;>
    simp [State.update, htb]

theorem claim_C4_witness :
    diamondNodes.tryBorrow (State.new "walk" ⟨3, 0⟩).root = some diamondRootNode ∧
    (State.update (State.new "walk" ⟨3, 0⟩) diamondNodes [] zeroAnims 1 0 freshState).1.name =
      "walk" ∧
    (State.update (State.new "walk" ⟨3, 0⟩) diamondNodes [] zeroAnims 1 0 freshState).2 =
      (evalPose diamondNodes [] zeroAnims 1 0 (diamondNodes.records.length + 1) ⟨3, 0⟩
        freshState).1 :=
  ⟨rfl,
    (claim_C4 (State.new "walk" ⟨3, 0⟩) diamondNodes [] zeroAnims 1 0 freshState).1,
    (claim_C4 (State.new "walk" ⟨3, 0⟩) diamondNodes [] zeroAnims 1 0 freshState).2.2.2.1
      diamondRootNode rfl⟩

/-- C5: the children enumeration of a pose node: a `PlayAnimation` node has
no children, and each blend variant lists exactly the child handles its
inputs reference, in order. -/
theorem claim_C5 (p : PlayAnimation) (b : BlendAnimations)
    (bi : BlendAnimationsByIndex) :
    (PoseNode.playAnimation p).children = [] ∧
    (PoseNode.blendAnimations b).children =
      b.poseSources.map (fun bp => bp.poseSource) ∧
    (PoseNode.blendAnimationsByIndex bi).children =
      bi.inputs.map (fun i => i.poseSource) :=
  ⟨rfl, rfl, rfl⟩


/-- The canonical value of the evaluation-irrelevant common fields. -/
def strippedBase : BasePoseNode := ⟨⟨0, 0⟩, ⟨0, 0⟩⟩

/-- Erase the two evaluation-irrelevant common fields of a node: the 2D
editor-position hint and the back-reference to the owning state. -/
def PoseNode.stripHints : PoseNode → PoseNode
  | .playAnimation p => .playAnimation ⟨strippedBase, p.animation, p.speed⟩
  | .blendAnimations b => .blendAnimations ⟨strippedBase, b.poseSources⟩
  | .blendAnimationsByIndex b =>
    .blendAnimationsByIndex ⟨strippedBase, b.indexParameter, b.inputs⟩

/-- Erase the editor-position hints and parent-state back-references of every
node of a pool; two pools are equal after `stripHints` exactly when they
differ only in those fields. -/
def Pool.stripHints (p : Pool PoseNode) : Pool PoseNode :=
  ⟨p.records.map (fun r => ⟨r.generation, r.payload.map PoseNode.stripHints⟩)⟩

theorem tryBorrow_stripHints (nodes : Pool PoseNode) (h : Handle) :
    nodes.stripHints.tryBorrow h = (nodes.tryBorrow h).map PoseNode.stripHints := by
  unfold Pool.tryBorrow Pool.stripHints
  simp only [List.getElem?_map]
  rcases hr : nodes.records[h.index]? with _ | r
  · rfl
  · by_cases hg : r.generation = h.generation
    · simp [hg]
    · simp [hg]

/-- Evaluation is oblivious to the stripped fields: evaluating over the
stripped pool gives exactly the same result as over the original pool. -/
theorem evalPose_stripHints (nodes : Pool PoseNode) (params : ParameterContainer)
    (animations : AnimationContainer) (dt : Rat) (tick : Nat) :
    ∀ fuel h σ, evalPose nodes.stripHints params animations dt tick fuel h σ =
      evalPose nodes params animations dt tick fuel h σ := by
  intro fuel
  induction fuel with
  | zero => intro h σ; rfl
  | succ fuel ih =>
    intro h σ
    simp only [evalPose, tryBorrow_stripHints]
    rcases htb : nodes.tryBorrow h with _ | node
    · rfl
    · simp only [Option.map_some']
      cases node with
      | playAnimation p => rfl
      | blendAnimations b =>
        simp only [PoseNode.stripHints]
        by_cases hst : (σ h).tick = some tick
        · simp only [if_pos hst]
        · simp only [if_neg hst]
          have hfold := List.foldl_ext (l := b.poseSources)
            (fun (acc : EvalState × List (Rat × AnimationPose)) bp =>
              ((evalPose nodes.stripHints params animations dt tick fuel bp.poseSource acc.1).1,
                acc.2 ++ [(weightOf params bp.weightParameter,
                  (evalPose nodes.stripHints params animations dt tick fuel
                    bp.poseSource acc.1).2)]))
            (fun (acc : EvalState × List (Rat × AnimationPose)) bp =>
              ((evalPose nodes params animations dt tick fuel bp.poseSource acc.1).1,
                acc.2 ++ [(weightOf params bp.weightParameter,
                  (evalPose nodes params animations dt tick fuel bp.poseSource acc.1).2)]))
            ((σ, []) : EvalState × List (Rat × AnimationPose))
            (fun acc bp _ => by simp only [ih])
          rw [hfold]
      | blendAnimationsByIndex b =>
        simp only [PoseNode.stripHints]
        by_cases hst : (σ h).tick = some tick
        · simp only [if_pos hst]
        · simp only [if_neg hst]
          rcases hg : b.inputs[selectedIndex params b.indexParameter b.inputs.length]?
            with _ | inp
          · simp only [hg]
          · simp only [hg]
            rw [ih inp.poseSource σ]

/-- C6: the 2D editor-position hints and the parent-state back-references
never influence evaluation: two pools that agree after erasing those two
fields produce identical evaluation results and identical `State::update`
outcomes for the same parameters, animations and dt. -/
theorem claim_C6 (n1 n2 : Pool PoseNode) (params : ParameterContainer)
    (animations : AnimationContainer) (dt : Rat) (tick fuel : Nat)
    (h : Handle) (σ : EvalState) (s : State)
    (heq : n1.stripHints = n2.stripHints) :
    evalPose n1 params animations dt tick fuel h σ =
      evalPose n2 params animations dt tick fuel h σ ∧
    State.update s n1 params animations dt tick σ =
      State.update s n2 params animations dt tick σ := by
  have heval : ∀ fuel2 h2 σ2, evalPose n1 params animations dt tick fuel2 h2 σ2 =
      evalPose n2 params animations dt tick fuel2 h2 σ2 := by
    intro fuel2 h2 σ2
    rw [← evalPose_stripHints n1 params animations dt tick fuel2 h2 σ2, heq,
      evalPose_stripHints n2 params animations dt tick fuel2 h2 σ2]
  have hlen : n1.records.length = n2.records.length := by
    have h1 : n1.stripHints.records.length = n1.records.length := by
      simp [Pool.stripHints]
    have h2 : n2.stripHints.records.length = n2.records.length := by
      simp [Pool.stripHints]
    rw [← h1, ← h2, heq]
  have htb : n1.tryBorrow s.root = none ↔ n2.tryBorrow s.root = none := by
    have e1 := tryBorrow_stripHints n1 s.root
    have e2 := tryBorrow_stripHints n2 s.root
    rw [heq] at e1
    constructor
    · intro hn
      rcases ho : n2.tryBorrow s.root with _ | v
      · rfl
      · rw [e2, ho] at e1; rw [hn] at e1; exact absurd e1.symm (by simp)
    · intro hn
      rcases ho : n1.tryBorrow s.root with _ | v
      · rfl
      · rw [ho] at e1; rw [e2, hn] at e1; exact absurd e1 (by simp)
  refine ⟨heval fuel h σ, ?_⟩
  unfold State.update
  rcases h1 : n1.tryBorrow s.root with _ | v1
  · rw [htb.1 h1]
  · rcases h2 : n2.tryBorrow s.root with _ | v2
    · exact absurd (htb.2 h2) (by simp [h1])
    · simp only []
      rw [hlen, heval (n2.records.length + 1) s.root σ]

/-- A variant of `diamondNodes` where every node carries a different
editor-position hint and a different parent-state back-reference. -/
def diamondNodesMoved : Pool PoseNode :=
  ⟨[⟨0, some (.playAnimation ⟨⟨⟨1, 2⟩, ⟨7, 9⟩⟩, 5, 1⟩)⟩,
    ⟨0, some (.blendAnimations ⟨⟨⟨3, 4⟩, ⟨8, 9⟩⟩, [⟨⟨0, 0⟩, "w1"⟩]⟩)⟩,
    ⟨0, some (.blendAnimations ⟨⟨⟨5, 6⟩, ⟨9, 9⟩⟩, [⟨⟨0, 0⟩, "w2"⟩]⟩)⟩,
    ⟨0, some (.blendAnimations ⟨⟨⟨7, 8⟩, ⟨10, 9⟩⟩, [⟨⟨1, 0⟩, "a"⟩, ⟨⟨2, 0⟩, "b"⟩]⟩)⟩]⟩

theorem claim_C6_witness :
    diamondNodes.stripHints = diamondNodesMoved.stripHints ∧
    (evalPose diamondNodes [] zeroAnims 1 0 4 ⟨3, 0⟩ freshState =
        evalPose diamondNodesMoved [] zeroAnims 1 0 4 ⟨3, 0⟩ freshState ∧
      State.update (State.new "walk" ⟨3, 0⟩) diamondNodes [] zeroAnims 1 0 freshState =
        State.update (State.new "walk" ⟨3, 0⟩) diamondNodesMoved [] zeroAnims 1 0
          freshState) :=
  ⟨by decide,
    claim_C6 diamondNodes diamondNodesMoved [] zeroAnims 1 0 4 ⟨3, 0⟩ freshState
      (State.new "walk" ⟨3, 0⟩) (by decide)⟩

/-- A declared struct field together with its `#[reflect(hidden)]` marking. -/
structure FieldInfo where
  name : String
  hidden : Bool
deriving DecidableEq, Repr

/-- The declared fields of `State` (state.rs) in declaration order, with
their reflection marking: `root` carries `#[reflect(hidden)]`. -/
def stateFieldInfos : List FieldInfo :=
  [⟨"position", false⟩, ⟨"name", false⟩, ⟨"root", true⟩]

/-- The declared fields of `BasePoseNode` (node/mod.rs) in declaration
order: `parent_state` carries `#[reflect(hidden)]`. -/
def basePoseNodeFieldInfos : List FieldInfo :=
  [⟨"position", false⟩, ⟨"parent_state", true⟩]

/-- Modelled from the spec: the field list generated by the `Reflect` derive
(the derive implementation is not in the sources; cf. the per-field property
lists built by rg3d-core-derive/src/inspect.rs) — the declared fields in
declaration order, skipping those marked `#[reflect(hidden)]`. -/
def reflectedFields (fs : List FieldInfo) : List String :=
  (fs.filter (fun f => !f.hidden)).map (fun f => f.name)

/-- C7 counterexample: `State::root` and `BasePoseNode::parent_state` are
declared fields but are not enumerable through the reflection traversal —
both carry `#[reflect(hidden)]`, so the generated field list omits them. -/
theorem claim_C7_counterexample :
    "root" ∈ stateFieldInfos.map (fun f => f.name) ∧
    "root" ∉ reflectedFields stateFieldInfos ∧
    "parent_state" ∈ basePoseNodeFieldInfos.map (fun f => f.name) ∧
    "parent_state" ∉ reflectedFields basePoseNodeFieldInfos := by
  decide

/-- C7 (amended): the reflection traversal of `State` and `BasePoseNode`
exposes exactly the declared fields not marked `#[reflect(hidden)]`, in
declaration order — so the state's root handle and the node's parent-state
back-reference are excluded — while derived structural equality compares all
fields, hidden ones included. -/
theorem claim_C7 :
    reflectedFields stateFieldInfos = ["position", "name"] ∧
    reflectedFields basePoseNodeFieldInfos = ["position"] ∧
    (∀ s1 s2 : State, s1 = s2 ↔
      (s1.position = s2.position ∧ s1.name = s2.name ∧ s1.root = s2.root)) ∧
    (∀ b1 b2 : BasePoseNode, b1 = b2 ↔
      (b1.position = b2.position ∧ b1.parentState = b2.parentState)) := by
  refine ⟨rfl, rfl, ?_, ?_⟩
  · intro s1 s2
    cases s1
    cases s2
    simp [State.mk.injEq]
  · intro b1 b2
    cases b1
    cases b2
    simp [BasePoseNode.mk.injEq]


/-- A scene node, seen through what `HierarchyNode::from_scene_node` reads:
its name and its list of child handles (editor/src/scene/selector.rs). -/
structure SceneNode where
  name : String
  children : List Handle
deriving DecidableEq, Repr

/-- `HierarchyNode` (selector.rs): name, handle and child sub-hierarchies. -/
inductive HierarchyNode where
  | mk (name : String) (handle : Handle) (children : List HierarchyNode)

def HierarchyNode.name : HierarchyNode → String
  | .mk n _ _ => n

def HierarchyNode.handle : HierarchyNode → Handle
  | .mk _ h _ => h

def HierarchyNode.children : HierarchyNode → List HierarchyNode
  | .mk _ _ c => c

/-- `HierarchyNode::from_scene_node` (selector.rs): builds the hierarchy of
the start node, keeping its own name and handle, and recursing into exactly
the children different from `ignored_node`.  The fuel bounds the recursion
depth (the Rust recursion terminates because scene graphs are trees; on fuel
exhaustion children are cut off).  A handle that does not resolve is read as
an empty default node (the Rust indexing would panic there). -/
def fromSceneNode (graph : Pool SceneNode) (ignoredNode : Handle) :
    Nat → Handle → HierarchyNode
  | 0, nodeHandle =>
    .mk ((graph.tryBorrow nodeHandle).getD ⟨"", []⟩).name nodeHandle []
  | fuel+1, nodeHandle =>
    let node := (graph.tryBorrow nodeHandle).getD ⟨"", []⟩
    .mk node.name nodeHandle
      (node.children.filterMap (fun c =>
        if c = ignoredNode then none
        else some (fromSceneNode graph ignoredNode fuel c)))

mutual

/-- Whether some entry of a hierarchy (the root included) satisfies the
predicate on handles. -/
def HierarchyNode.anyHandle (p : Handle → Bool) : HierarchyNode → Bool
  | .mk _ h cs => p h || HierarchyNode.anyHandleList p cs

def HierarchyNode.anyHandleList (p : Handle → Bool) : List HierarchyNode → Bool
  | [] => false
  | c :: cs => HierarchyNode.anyHandle p c || HierarchyNode.anyHandleList p cs

end

theorem fromSceneNode_no_ignored (graph : Pool SceneNode) (ignoredNode : Handle) :
    ∀ fuel h, h ≠ ignoredNode →
      HierarchyNode.anyHandle (fun x => decide (x = ignoredNode))
        (fromSceneNode graph ignoredNode fuel h) = false := by
  intro fuel
  induction fuel with
  | zero =>
    intro h hne
    simp [fromSceneNode, HierarchyNode.anyHandle, HierarchyNode.anyHandleList, hne]
  | succ fuel ih =>
    intro h hne
    simp only [fromSceneNode, HierarchyNode.anyHandle, Bool.or_eq_false_iff]
    refine ⟨by simp [hne], ?_⟩
    induction ((graph.tryBorrow h).getD ⟨"", []⟩).children with
    | nil => rfl
    | cons c cs ihl =>
      by_cases hc : c = ignoredNode
      · simp only [List.filterMap_cons, hc, if_pos rfl]
        exact ihl
      · simp only [List.filterMap_cons, if_neg hc, HierarchyNode.anyHandleList,
          Bool.or_eq_false_iff]
        exact ⟨ih c hc, ihl⟩

/-- C8: the hierarchy built from a start node never contains the ignored
handle below the root — the ignored node and its whole subtree are excluded
at every depth — while the root entry keeps the start node's own name and
handle (even when the start node is the ignored node itself). -/
theorem claim_C8 (graph : Pool SceneNode) (startNode ignoredNode : Handle) (fuel : Nat) :
    (fromSceneNode graph ignoredNode fuel startNode).handle = startNode ∧
    (∀ node, graph.tryBorrow startNode = some node →
      (fromSceneNode graph ignoredNode fuel startNode).name = node.name) ∧
    HierarchyNode.anyHandleList (fun x => decide (x = ignoredNode))
      (fromSceneNode graph ignoredNode fuel startNode).children = false := by
  refine ⟨?_, ?_, ?_⟩
  · cases fuel <;> rfl
  · intro node htb
    cases fuel <;> simp [fromSceneNode, htb, HierarchyNode.name]
  · cases fuel with
    | zero => rfl
    | succ fuel =>
      simp only [fromSceneNode, HierarchyNode.children]
      induction ((graph.tryBorrow startNode).getD ⟨"", []⟩).children with
      | nil => rfl
      | cons c cs ihl =>
        by_cases hc : c = ignoredNode
        · simp only [List.filterMap_cons, hc, if_pos rfl]
          exact ihl
        · simp only [List.filterMap_cons, if_neg hc, HierarchyNode.anyHandleList,
            Bool.or_eq_false_iff]
          exact ⟨fromSceneNode_no_ignored graph ignoredNode fuel c hc, ihl⟩

theorem claim_C8_witness :
    ((⟨[⟨0, some ⟨"root", [⟨1, 0⟩, ⟨2, 0⟩]⟩⟩,
        ⟨0, some ⟨"keep", [⟨2, 0⟩]⟩⟩,
        ⟨0, some ⟨"drop", []⟩⟩]⟩ : Pool SceneNode).tryBorrow ⟨0, 0⟩ =
      some ⟨"root", [⟨1, 0⟩, ⟨2, 0⟩]⟩) ∧
    (fromSceneNode ⟨[⟨0, some ⟨"root", [⟨1, 0⟩, ⟨2, 0⟩]⟩⟩,
        ⟨0, some ⟨"keep", [⟨2, 0⟩]⟩⟩,
        ⟨0, some ⟨"drop", []⟩⟩]⟩ ⟨2, 0⟩ 3 ⟨0, 0⟩).name = "root" ∧
    HierarchyNode.anyHandleList (fun x => decide (x = (⟨2, 0⟩ : Handle)))
      (fromSceneNode ⟨[⟨0, some ⟨"root", [⟨1, 0⟩, ⟨2, 0⟩]⟩⟩,
        ⟨0, some ⟨"keep", [⟨2, 0⟩]⟩⟩,
        ⟨0, some ⟨"drop", []⟩⟩]⟩ ⟨2, 0⟩ 3 ⟨0, 0⟩).children = false :=
  ⟨rfl,
    (claim_C8 ⟨[⟨0, some ⟨"root", [⟨1, 0⟩, ⟨2, 0⟩]⟩⟩,
        ⟨0, some ⟨"keep", [⟨2, 0⟩]⟩⟩,
        ⟨0, some ⟨"drop", []⟩⟩]⟩ ⟨0, 0⟩ ⟨2, 0⟩ 3).2.1 ⟨"root", [⟨1, 0⟩, ⟨2, 0⟩]⟩ rfl,
    (claim_C8 ⟨[⟨0, some ⟨"root", [⟨1, 0⟩, ⟨2, 0⟩]⟩⟩,
        ⟨0, some ⟨"keep", [⟨2, 0⟩]⟩⟩,
        ⟨0, some ⟨"drop", []⟩⟩]⟩ ⟨0, 0⟩ ⟨2, 0⟩ 3).2.2⟩


/-- Lowercasing of a string, as Rust's `to_lowercase` (restricted to
per-character lowering). -/
def lowercase (s : String) : String :=
  ⟨s.data.map Char.toLower⟩

/-- Substring containment, as Rust's `str::contains`: the needle is a prefix
of some suffix of the haystack. -/
def containsSub (hay needle : String) : Bool :=
  hay.data.tails.any (fun t => needle.data.isPrefixOf t)

/-- A UI widget as seen by `apply_filter_recursive` (selector.rs): its
handle, the name stored in its `TreeData` when the widget is a `Tree`
carrying tree data (`none` otherwise), and its child widgets. -/
inductive Widget where
  | mk (handle : Handle) (treeData : Option String) (children : List Widget)

def Widget.handle : Widget → Handle
  | .mk h _ _ => h

def Widget.treeData : Widget → Option String
  | .mk _ td _ => td

def Widget.children : Widget → List Widget
  | .mk _ _ cs => cs

mutual

/-- `apply_filter_recursive` (selector.rs): fold the filter over all
children, then, if the widget is a `Tree` with `TreeData`, also match its
own lowercased name against the filter and send one visibility message for
the widget carrying the combined result.  Returns the match flag and the
list of sent visibility messages (destination, visibility), in send order. -/
def applyFilterRecursive (filter : String) : Widget → Bool × List (Handle × Bool)
  | .mk h td cs =>
    let r := applyFilterList filter cs
    match td with
    | some name =>
      let m := r.1 || containsSub (lowercase name) filter
      (m, r.2 ++ [(h, m)])
    | none => (r.1, r.2)

def applyFilterList (filter : String) : List Widget → Bool × List (Handle × Bool)
  | [] => (false, [])
  | c :: cs =>
    let rc := applyFilterRecursive filter c
    let rcs := applyFilterList filter cs
    (rc.1 || rcs.1, rc.2 ++ rcs.2)

end

mutual

/-- Specification-side predicate: some widget of the subtree (the root
included) is a `Tree` with `TreeData` whose lowercased stored name contains
the filter. -/
def subtreeMatches (filter : String) : Widget → Bool
  | .mk _ td cs =>
    (match td with
     | some name => containsSub (lowercase name) filter
     | none => false) || subtreeMatchesList filter cs

def subtreeMatchesList (filter : String) : List Widget → Bool
  | [] => false
  | c :: cs => subtreeMatches filter c || subtreeMatchesList filter cs

end

mutual

/-- Specification-side message list: exactly one visibility message per
`Tree`-with-`TreeData` widget, in post-order (children before the widget),
whose value is whether that widget's own subtree matches the filter. -/
def expectedMessages (filter : String) : Widget → List (Handle × Bool)
  | .mk h td cs =>
    expectedMessagesList filter cs ++
      (match td with
       | some _ => [(h, subtreeMatches filter (.mk h td cs))]
       | none => [])

def expectedMessagesList (filter : String) : List Widget → List (Handle × Bool)
  | [] => []
  | c :: cs => expectedMessages filter c ++ expectedMessagesList filter cs

end

mutual

theorem applyFilter_spec (filter : String) : ∀ w : Widget,
    (applyFilterRecursive filter w).1 = subtreeMatches filter w ∧
    (applyFilterRecursive filter w).2 = expectedMessages filter w
  | .mk h td cs => by
    have hl := applyFilterList_spec filter cs
    cases td with
    | none =>
      simp [applyFilterRecursive, subtreeMatches, expectedMessages, hl.1, hl.2]
    | some name =>
      simp [applyFilterRecursive, subtreeMatches, expectedMessages, hl.1, hl.2,
        Bool.or_comm]

theorem applyFilterList_spec (filter : String) : ∀ cs : List Widget,
    (applyFilterList filter cs).1 = subtreeMatchesList filter cs ∧
    (applyFilterList filter cs).2 = expectedMessagesList filter cs
  | [] => ⟨rfl, rfl⟩
  | c :: cs => by
    have h1 := applyFilter_spec filter c
    have h2 := applyFilterList_spec filter cs
    simp [applyFilterList, subtreeMatchesList, expectedMessagesList, h1.1, h1.2,
      h2.1, h2.2]

end

/-- C9: `apply_filter_recursive` returns true exactly when some widget of
the subtree is a `Tree` carrying `TreeData` whose lowercased name contains
the filter, and sends exactly one visibility message per such `Tree` widget
— in post-order — whose value is true exactly when that widget's own name or
some widget of its subtree matches. -/
theorem claim_C9 (filter : String) (w : Widget) :
    (applyFilterRecursive filter w).1 = subtreeMatches filter w ∧
    (applyFilterRecursive filter w).2 = expectedMessages filter w :=
  applyFilter_spec filter w

/-- `MessageDirection` (rg3d-ui/src/message.rs). -/
inductive MessageDirection where
  | toWidget
  | fromWidget
deriving DecidableEq, Repr

/-- `MessageDirection::reverse` (message.rs). -/
def MessageDirection.reverse : MessageDirection → MessageDirection
  | .toWidget => .fromWidget
  | .fromWidget => .toWidget

/-- `UiMessage` (message.rs), generic over the payload type (the payload is
carried wholesale; `Cell<bool>` fields are modelled by their boolean
value, which `clone` copies). -/
structure UiMessage (Data : Type) where
  handled : Bool
  data : Data
  destination : Handle
  direction : MessageDirection
  performLayout : Bool
  flags : Nat
deriving DecidableEq, Repr

/-- `UiMessage::reverse` (message.rs): a copy of the message with the
direction reversed and every other field cloned. -/
def UiMessage.reverse {Data : Type} (m : UiMessage Data) : UiMessage Data :=
  ⟨m.handled, m.data, m.destination, m.direction.reverse, m.performLayout, m.flags⟩

/-- C10: `MessageDirection::reverse` is an involution, and `UiMessage::reverse`
changes only the direction while preserving handled, data, destination,
perform_layout and flags — so reversing a message twice yields the original
message. -/
theorem claim_C10 {Data : Type} (d : MessageDirection) (m : UiMessage Data) :
    d.reverse.reverse = d ∧
    m.reverse.reverse = m ∧
    m.reverse.handled = m.handled ∧
    m.reverse.data = m.data ∧
    m.reverse.destination = m.destination ∧
    m.reverse.performLayout = m.performLayout ∧
    m.reverse.flags = m.flags ∧
    m.reverse.direction = m.direction.reverse := by
  refine ⟨?_, ?_, rfl, rfl, rfl, rfl, rfl, rfl⟩
  · cases d <;> rfl
  · cases m with
    | mk hd dt ds dir pl fl => cases dir <;> rfl

end Fyrox
